import Mathlib

/-! Verification of the build-orchestrator core of `iob_core.py`.

The embedding models the filesystem as explicit listings of directory and
regular-file paths (a path being its list of components), and translates
each operation of the source file directly:

* `find_common_deep`, `_remove_duplicate_sources` — the post-build source
  deduplication pass;
* `walkTree` / `find_module_setup_dir` — the `os.walk`-based setup-directory
  resolver;
* `create_build_dir` — the build-tree creation of `__create_build_dir`;
* `print_build_dir`, `initSteps`, `subBuildDirs` — the small descriptor
  operations and the construction pipeline of `iob_core.__init__`.
-/

/-- A filesystem path, as its list of components. -/
abbrev FPath : Type := List String

/-- `dropPre root p` is `some rel` exactly when `p = root ++ rel`, i.e. when
`p` lies under the directory `root`; `rel` is then the relative path computed
by `os.path.relpath` in `find_common_deep`. -/
def dropPre : FPath → FPath → Option FPath
  | [], p => some p
  | _ :: _, [] => none
  | r :: rs, x :: xs => if r = x then dropPre rs xs else none

/-- Filesystem state: listings of all directories and all regular files, each
named by its full path. -/
structure FS where
  dirs : List FPath
  files : List FPath

/-- Relative paths of all regular files lying under `root`: the set
`{os.path.relpath(os.path.join(r, file), root) | r, file ∈ os.walk(root)}`
built inside `find_common_deep`. -/
def filesUnder (files : List FPath) (root : FPath) : List FPath :=
  files.filterMap (dropPre root)

/-- Embedding of `find_common_deep(path1, path2)`: the relative file paths
present under both directories (a set intersection in the source). -/
def find_common_deep (fs : FS) (path1 path2 : FPath) : List FPath :=
  (filesUnder fs.files path1).filter (fun r => decide (r ∈ filesUnder fs.files path2))

/-- Embedding of `os.remove(p)`: delete the regular file at `p`. -/
def osRemove (fs : FS) (p : FPath) : FS :=
  { fs with files := fs.files.filter (fun q => decide (q ≠ p)) }

/-- The canonical purpose subtree `"hardware/src"`. -/
def hw_src : FPath := ["hardware", "src"]

/-- The purpose subtree `"hardware/simulation/src"`. -/
def simulation_src : FPath := ["hardware", "simulation", "src"]

/-- The purpose subtree `"hardware/fpga/src"`. -/
def fpga_src : FPath := ["hardware", "fpga", "src"]

/-- The `PURPOSE_DIRS` dictionary of `iob_core.__init__`, in insertion
order. -/
def PURPOSE_DIRS : List (String × FPath) :=
  [("hardware", hw_src), ("simulation", simulation_src), ("fpga", fpga_src)]

/-- Embedding of `iob_core._remove_duplicate_sources`: for every purpose
subfolder other than `hardware/src`, remove from it every file whose relative
path is shared with `hardware/src` (`find_common_deep` followed by
`os.remove` of each common source). -/
def _remove_duplicate_sources (build_dir : FPath) (fs : FS) : FS :=
  (PURPOSE_DIRS.map Prod.snd).foldl
    (fun acc subfolder =>
      if subfolder = hw_src then acc
      else
        (find_common_deep acc (build_dir ++ hw_src) (build_dir ++ subfolder)).foldl
          (fun acc2 src => osRemove acc2 (build_dir ++ subfolder ++ src)) acc)
    fs

/-- One iteration of the `_remove_duplicate_sources` loop, for a single
non-canonical subfolder: used to state lemmas about the full pass. -/
def removePass (build_dir sub : FPath) (fs : FS) : FS :=
  (find_common_deep fs (build_dir ++ hw_src) (build_dir ++ sub)).foldl
    (fun acc src => osRemove acc (build_dir ++ sub ++ src)) fs

mutual
/-- A directory of the search tree seen by `os.walk`: its name, its regular
files and its subdirectories in traversal order. -/
inductive DirTree : Type where
  | mk (name : String) (files : List String) (subs : DirForest)
/-- Sibling directories, in the traversal order `os.walk` enumerates them. -/
inductive DirForest : Type where
  | nil
  | cons (head : DirTree) (tail : DirForest)
end

mutual
/-- Top-down preorder enumeration of `(directory path, its files)`: the order
in which `os.walk` yields its `(root, directories, files)` triples. -/
def walkTree (cur : FPath) : DirTree → List (FPath × List String)
  | .mk name files subs => (cur ++ [name], files) :: walkForest (cur ++ [name]) subs
/-- `walkTree` mapped over sibling directories, in order. -/
def walkForest (cur : FPath) : DirForest → List (FPath × List String)
  | .nil => []
  | .cons h t => walkTree cur h ++ walkForest cur t
end

/-- Name of the root directory of a search tree (the `search_path` argument
of `find_module_setup_dir`). -/
def DirTree.rootName : DirTree → String
  | .mk name _ _ => name

/-- Embedding of the test `file.split(".")[0] == core.__class__.__name__`:
the file name truncated at its first dot equals the class name. -/
def fileMatches (file : String) (className : String) : Bool :=
  decide ((file.toList.takeWhile (fun c => c ≠ '.')).asString = className)

/-- A core object as seen by `find_module_setup_dir`: its Python class name
(matched against file names) and its `name` attribute (used in the error
message). -/
structure PyCore where
  className : String
  name : String

/-- Embedding of `find_module_setup_dir(core, search_path)`: return the first
directory in `os.walk` order containing a file matching the core's class
name; otherwise raise the `SetupNotFound` exception naming `core.name` and
the search path. -/
def find_module_setup_dir (core : PyCore) (root : DirTree) : Except String FPath :=
  match (walkTree [] root).find? (fun e => e.2.any (fun file => fileMatches file core.className)) with
  | some e => Except.ok e.1
  | none =>
      Except.error ("Setup dir of " ++ core.name ++ " not found in " ++ root.rootName ++ "!")

/-- The specification's matching rule, stated for comparison with the
source's `fileMatches`: the file's base name with its (final) extension
stripped. -/
def specStripExt (file : String) : String :=
  if '.' ∈ file.toList then
    ((file.toList.reverse.dropWhile (fun c => c ≠ '.')).drop 1).reverse.asString
  else file

/-- The `build_dir` derived for a top core: `f"../{name}_{version}/build"`. -/
def topBuildDir (name version : String) : String :=
  "../" ++ name ++ "_" ++ version ++ "/build"

mutual
/-- Shape of a core's tree of sub-instances. -/
inductive CoreSpec : Type where
  | mk (subs : CoreSpecList)
/-- Ordered sub-instances of a core. -/
inductive CoreSpecList : Type where
  | nil
  | cons (head : CoreSpec) (tail : CoreSpecList)
end

mutual
/-- The `build_dir` attribute of a sub-core and of all its descendants.
The non-top branch of `iob_core.__init__` sets `self.build_dir = topdir`.
Modelled from the spec: the instantiation of sub-cores (`create_instance`,
whose code is not under `src/`) passes the parent's `build_dir` as `topdir`
("`build_dir` ... for a sub-core it is inherited unchanged from its
parent"). -/
def subBuildDirs : CoreSpec → String → List String
  | .mk subs, topdir => topdir :: subsBuildDirs subs topdir
/-- `subBuildDirs` collected over a list of sub-instances. -/
def subsBuildDirs : CoreSpecList → String → List String
  | .nil, _ => []
  | .cons h t, topdir => subBuildDirs h topdir ++ subsBuildDirs t topdir
end

/-- The `build_dir` attributes of every descriptor of one top-level build:
the top branch of `iob_core.__init__` sets
`self.build_dir = f"../{self.name}_{self.version}/build"` and
`topdir = self.build_dir` before any sub-core is created. -/
def allBuildDirs (name version : String) (subs : CoreSpecList) : List String :=
  topBuildDir name version :: subsBuildDirs subs (topBuildDir name version)

/-- One step of the construction pipeline of `iob_core.__init__`. `CG` and
`RT` are the opaque `csr_gen_obj` and `reg_table` values returned by the
external register phase `reg_gen.generate_csr`. -/
inductive Step (CG RT : Type) : Type where
  | resolve_setup_dir
  | create_build_dir_step
  | flows_setup
  | copy_rename_setup_directory
  | config_build_mk
  | generate_confs
  | generate_params
  | generate_ports
  | generate_csr (obj : CG) (table : RT)
  | replace_snippet_includes
  | remove_duplicate_sources_step
  | generate_docs (obj : CG) (table : RT)

/-- The sequence of steps executed by `iob_core.__init__` for a descriptor
with the given `is_top` flag, in source order: setup-dir resolution; the two
`if is_top` blocks (build-tree creation, flow scaffolding); source copy-in;
the generation phases; and the final `if is_top` block (snippet-include
resolution, deduplication, documentation generation receiving the values
produced by the register phase). -/
def initSteps (CG RT : Type) (is_top : Bool) (csr_gen_obj : CG) (reg_table : RT) :
    List (Step CG RT) :=
  [Step.resolve_setup_dir]
    ++ (if is_top then [Step.create_build_dir_step] else [])
    ++ (if is_top then [Step.flows_setup] else [])
    ++ [Step.copy_rename_setup_directory, Step.config_build_mk, Step.generate_confs,
        Step.generate_params, Step.generate_ports, Step.generate_csr csr_gen_obj reg_table]
    ++ (if is_top then
          [Step.replace_snippet_includes, Step.remove_duplicate_sources_step,
           Step.generate_docs csr_gen_obj reg_table]
        else [])

/-- Insert a path into a listing unless already present. -/
def insertPath (l : List FPath) (p : FPath) : List FPath :=
  if p ∈ l then l else l ++ [p]

/-- All nonempty initial segments of a path, shortest first: the chain of
directories `os.makedirs` creates. -/
def pathAncestors : FPath → List FPath
  | [] => []
  | x :: xs => [x] :: (pathAncestors xs).map (fun q => x :: q)

/-- Embedding of `os.makedirs(p, exist_ok=True)`: create `p` and every
intermediate directory; pre-existing directories are left alone and are not
an error. -/
def makedirs (fs : FS) (p : FPath) : FS :=
  { fs with dirs := (pathAncestors p).foldl insertPath fs.dirs }

/-- Embedding of `shutil.copyfile(src, dst)` on the presence level: the
destination file exists afterwards (its content is overwritten). -/
def copyfileTo (fs : FS) (dst : FPath) : FS :=
  { fs with files := insertPath fs.files dst }

/-- The filesystem effect of the body of `iob_core.__create_build_dir`:
the six `os.makedirs(..., exist_ok=True)` calls followed by the copy of the
library `build.mk` to `build_dir/Makefile`. -/
def buildFS (build_dir : FPath) (fs : FS) : FS :=
  copyfileTo
    (makedirs
      (makedirs
        (makedirs
          (makedirs
            (makedirs (makedirs fs build_dir) (build_dir ++ hw_src))
            (build_dir ++ simulation_src))
          (build_dir ++ fpga_src))
        (build_dir ++ ["doc"]))
      (build_dir ++ ["doc", "tsrc"]))
    (build_dir ++ ["Makefile"])

/-- Embedding of `iob_core.__create_build_dir`: the `is_top_module`
assertion followed by the directory creations and the Makefile copy
(`buildFS`). `none` is the assertion failure on a non-top module. -/
def create_build_dir (is_top_module : Bool) (build_dir : FPath) (fs : FS) : Option FS :=
  if is_top_module then some (buildFS build_dir fs) else none

/-- The descriptor attributes given default values by `iob_core.__init__`. -/
structure CoreAttrs where
  name : String
  version : String
  previous_version : String
  csr_if : String
  purpose : String
  is_top_module : Bool
  setup_dir : String
  build_dir : String

/-- Embedding of `iob_core.print_build_dir`: it assigns
`self.build_dir = f"../{self.name}_{self.version}"`, prints that string, and
touches nothing else (no filesystem operation). The result is the updated
descriptor, the filesystem, and the printed output. -/
def print_build_dir (c : CoreAttrs) (fs : FS) : CoreAttrs × FS × String :=
  let bd := "../" ++ c.name ++ "_" ++ c.version
  ({ c with build_dir := bd }, fs, bd)

/-! ### Lemmas about the deduplication pass -/

theorem dropPre_eq_some : ∀ (root p rel : FPath), dropPre root p = some rel ↔ p = root ++ rel
  | [], p, rel => by simp [dropPre, eq_comm]
  | r :: rs, [], rel => by simp [dropPre]
  | r :: rs, x :: xs, rel => by
    simp only [dropPre, List.cons_append, List.cons.injEq]
    by_cases h : r = x
    · rw [if_pos h, dropPre_eq_some rs xs rel]
      subst h
      simp
    · rw [if_neg h]
      constructor
      · intro hx
        exact Option.noConfusion hx
      · rintro ⟨hx, -⟩
        exact absurd hx.symm h

theorem mem_filesUnder (files : List FPath) (root rel : FPath) :
    rel ∈ filesUnder files root ↔ root ++ rel ∈ files := by
  simp [filesUnder, List.mem_filterMap, dropPre_eq_some]

theorem mem_find_common_deep (fs : FS) (p1 p2 rel : FPath) :
    rel ∈ find_common_deep fs p1 p2 ↔ p1 ++ rel ∈ fs.files ∧ p2 ++ rel ∈ fs.files := by
  simp [find_common_deep, List.mem_filter, mem_filesUnder]

theorem mem_osRemove (fs : FS) (p q : FPath) :
    q ∈ (osRemove fs p).files ↔ q ∈ fs.files ∧ q ≠ p := by
  simp [osRemove, List.mem_filter]

theorem mem_foldl_osRemove (L : List FPath) (base : FPath) (fs : FS) (f : FPath) :
    f ∈ (L.foldl (fun acc src => osRemove acc (base ++ src)) fs).files ↔
      f ∈ fs.files ∧ ∀ s ∈ L, f ≠ base ++ s := by
  induction L generalizing fs with
  | nil => simp
  | cons s L ih =>
    rw [List.foldl_cons, ih]
    simp only [mem_osRemove, List.mem_cons]
    constructor
    · rintro ⟨⟨hf, hs⟩, hall⟩
      refine ⟨hf, fun x hx => ?_⟩
      rcases hx with rfl | hx
      · exact hs
      · exact hall x hx
    · rintro ⟨hf, hall⟩
      exact ⟨⟨hf, hall s (Or.inl rfl)⟩, fun x hx => hall x (Or.inr hx)⟩

theorem dirs_foldl_osRemove (L : List FPath) (base : FPath) (fs : FS) :
    (L.foldl (fun acc src => osRemove acc (base ++ src)) fs).dirs = fs.dirs := by
  induction L generalizing fs with
  | nil => rfl
  | cons s L ih => rw [List.foldl_cons, ih]; rfl

theorem mem_removePass (bd sub : FPath) (fs : FS) (f : FPath) :
    f ∈ (removePass bd sub fs).files ↔
      f ∈ fs.files ∧ ∀ r, f = bd ++ sub ++ r → bd ++ hw_src ++ r ∉ fs.files := by
  rw [removePass, mem_foldl_osRemove]
  constructor
  · rintro ⟨hf, hall⟩
    refine ⟨hf, fun r hr hhw => ?_⟩
    have hmem : r ∈ find_common_deep fs (bd ++ hw_src) (bd ++ sub) := by
      rw [mem_find_common_deep]
      exact ⟨hhw, hr ▸ hf⟩
    exact hall r hmem hr
  · rintro ⟨hf, hcond⟩
    refine ⟨hf, fun s hs heq => ?_⟩
    rw [mem_find_common_deep] at hs
    exact hcond s heq hs.1

theorem dirs_removePass (bd sub : FPath) (fs : FS) :
    (removePass bd sub fs).dirs = fs.dirs := by
  rw [removePass, dirs_foldl_osRemove]

theorem remove_duplicate_sources_eq (bd : FPath) (fs : FS) :
    _remove_duplicate_sources bd fs =
      removePass bd fpga_src (removePass bd simulation_src fs) := by
  rw [_remove_duplicate_sources,
    show PURPOSE_DIRS.map Prod.snd = [hw_src, simulation_src, fpga_src] from rfl,
    List.foldl_cons, List.foldl_cons, List.foldl_cons, List.foldl_nil,
    if_pos rfl, if_neg (by decide), if_neg (by decide)]
  rfl

theorem append_under_ne (bd a b r s : FPath) (h : a ++ r ≠ b ++ s) :
    bd ++ a ++ r ≠ bd ++ b ++ s := by
  intro he
  apply h
  rw [List.append_assoc bd a r, List.append_assoc bd b s] at he
  exact List.append_cancel_left he

theorem hw_not_under_sim (bd r s : FPath) :
    bd ++ hw_src ++ r ≠ bd ++ simulation_src ++ s :=
  append_under_ne bd hw_src simulation_src r s (by simp [hw_src, simulation_src])

theorem hw_not_under_fpga (bd r s : FPath) :
    bd ++ hw_src ++ r ≠ bd ++ fpga_src ++ s :=
  append_under_ne bd hw_src fpga_src r s (by simp [hw_src, fpga_src])

theorem sim_not_under_fpga (bd r s : FPath) :
    bd ++ simulation_src ++ r ≠ bd ++ fpga_src ++ s :=
  append_under_ne bd simulation_src fpga_src r s (by simp [simulation_src, fpga_src])

theorem mem_remove_duplicate_sources (bd : FPath) (fs : FS) (f : FPath) :
    f ∈ (_remove_duplicate_sources bd fs).files ↔
      f ∈ fs.files
        ∧ (∀ r, f = bd ++ simulation_src ++ r → bd ++ hw_src ++ r ∉ fs.files)
        ∧ (∀ r, f = bd ++ fpga_src ++ r → bd ++ hw_src ++ r ∉ fs.files) := by
  rw [remove_duplicate_sources_eq, mem_removePass, mem_removePass]
  constructor
  · rintro ⟨⟨hf, hsim⟩, hfpga⟩
    refine ⟨hf, hsim, fun r hr hhw => ?_⟩
    apply hfpga r hr
    rw [mem_removePass]
    exact ⟨hhw, fun s heq => absurd heq (hw_not_under_sim bd r s)⟩
  · rintro ⟨hf, hsim, hfpga⟩
    refine ⟨⟨hf, hsim⟩, fun r hr hmem => ?_⟩
    rw [mem_removePass] at hmem
    exact hfpga r hr hmem.1

/-- C1: after deduplication of a top-level build, for every non-canonical
purpose subtree (`hardware/simulation/src` and `hardware/fpga/src`), no file
whose relative path also exists under the canonical `hardware/src` subtree
remains in that non-canonical subtree; every file in the intersection is
deleted from the non-canonical subtree, and the canonical copy is left
untouched. -/
theorem dedup_removes_common_sources (bd : FPath) (fs : FS) (sub : FPath)
    (hsub : sub = simulation_src ∨ sub = fpga_src) :
    (∀ r, r ∈ filesUnder (_remove_duplicate_sources bd fs).files (bd ++ hw_src) →
        r ∉ filesUnder (_remove_duplicate_sources bd fs).files (bd ++ sub))
      ∧ (∀ r, r ∈ filesUnder fs.files (bd ++ hw_src) →
          r ∈ filesUnder fs.files (bd ++ sub) →
          bd ++ sub ++ r ∉ (_remove_duplicate_sources bd fs).files)
      ∧ (∀ r, r ∈ filesUnder (_remove_duplicate_sources bd fs).files (bd ++ hw_src) ↔
          r ∈ filesUnder fs.files (bd ++ hw_src)) := by
  have hcanon : ∀ r, r ∈ filesUnder (_remove_duplicate_sources bd fs).files (bd ++ hw_src) ↔
      r ∈ filesUnder fs.files (bd ++ hw_src) := by
    intro r
    rw [mem_filesUnder, mem_filesUnder, mem_remove_duplicate_sources]
    constructor
    · exact fun h => h.1
    · intro h
      exact ⟨h, fun s heq => absurd heq (hw_not_under_sim bd r s),
        fun s heq => absurd heq (hw_not_under_fpga bd r s)⟩
  have hdel : ∀ r, r ∈ filesUnder fs.files (bd ++ hw_src) →
      r ∈ filesUnder fs.files (bd ++ sub) →
      bd ++ sub ++ r ∉ (_remove_duplicate_sources bd fs).files := by
    intro r hhw _ hmem
    rw [mem_remove_duplicate_sources] at hmem
    rw [mem_filesUnder] at hhw
    rcases hsub with rfl | rfl
    · exact hmem.2.1 r rfl hhw
    · exact hmem.2.2 r rfl hhw
  refine ⟨?_, hdel, hcanon⟩
  intro r hhw hsub'
  rw [mem_filesUnder] at hsub'
  have hhw' := (hcanon r).mp hhw
  have hsubfs : r ∈ filesUnder fs.files (bd ++ sub) := by
    rw [mem_filesUnder]
    rw [mem_remove_duplicate_sources] at hsub'
    exact hsub'.1
  exact hdel r hhw' hsubfs hsub'

/-- Witness for C1 at a concrete build tree: `a.v` is present both under
`hardware/src` and `hardware/simulation/src`, and deduplication deletes the
simulation copy. -/
theorem dedup_removes_common_sources_witness :
    ["bd"] ++ simulation_src ++ ["a.v"] ∉
      (_remove_duplicate_sources ["bd"]
        ⟨[], [["bd", "hardware", "src", "a.v"],
              ["bd", "hardware", "simulation", "src", "a.v"]]⟩).files :=
  (dedup_removes_common_sources ["bd"]
      ⟨[], [["bd", "hardware", "src", "a.v"],
            ["bd", "hardware", "simulation", "src", "a.v"]]⟩
      simulation_src (Or.inl rfl)).2.1
    ["a.v"] (by decide) (by decide)

/-- C8: deduplication is idempotent — running the pass twice in succession
yields exactly the same files as running it once. -/
theorem dedup_idempotent (bd : FPath) (fs : FS) :
    _remove_duplicate_sources bd (_remove_duplicate_sources bd fs) =
      _remove_duplicate_sources bd fs := by
  have hempty : ∀ sub, sub = simulation_src ∨ sub = fpga_src →
      find_common_deep (_remove_duplicate_sources bd fs) (bd ++ hw_src) (bd ++ sub) = [] := by
    intro sub hsub
    rw [List.eq_nil_iff_forall_not_mem]
    intro r hr
    rw [mem_find_common_deep] at hr
    obtain ⟨hhw, hs⟩ := hr
    rw [mem_remove_duplicate_sources] at hhw hs
    rcases hsub with rfl | rfl
    · exact hs.2.1 r rfl hhw.1
    · exact hs.2.2 r rfl hhw.1
  have h1 : removePass bd simulation_src (_remove_duplicate_sources bd fs) =
      _remove_duplicate_sources bd fs := by
    rw [removePass, hempty simulation_src (Or.inl rfl), List.foldl_nil]
  have h2 : removePass bd fpga_src (_remove_duplicate_sources bd fs) =
      _remove_duplicate_sources bd fs := by
    rw [removePass, hempty fpga_src (Or.inr rfl), List.foldl_nil]
  rw [remove_duplicate_sources_eq bd (_remove_duplicate_sources bd fs), h1, h2]

/-- C9: deduplication removes only regular files — it never deletes or
creates a directory, never adds a file, and neither deletes nor adds any
file under the canonical `hardware/src` subtree. -/
theorem dedup_frame (bd : FPath) (fs : FS) :
    (_remove_duplicate_sources bd fs).dirs = fs.dirs
      ∧ (∀ f, f ∈ (_remove_duplicate_sources bd fs).files → f ∈ fs.files)
      ∧ (∀ r, bd ++ hw_src ++ r ∈ (_remove_duplicate_sources bd fs).files ↔
          bd ++ hw_src ++ r ∈ fs.files) := by
  refine ⟨?_, ?_, ?_⟩
  · rw [remove_duplicate_sources_eq, dirs_removePass, dirs_removePass]
  · intro f hf
    rw [mem_remove_duplicate_sources] at hf
    exact hf.1
  · intro r
    rw [mem_remove_duplicate_sources]
    constructor
    · exact fun h => h.1
    · intro h
      exact ⟨h, fun s heq => absurd heq (hw_not_under_sim bd r s),
        fun s heq => absurd heq (hw_not_under_fpga bd r s)⟩

/-- Witness for C9 at a concrete state: a surviving file of the pass was
already present beforehand. -/
theorem dedup_frame_witness :
    (["x.v"] : FPath) ∈ FS.files ⟨[], [["x.v"]]⟩ :=
  (dedup_frame [] ⟨[], [["x.v"]]⟩).2.1 ["x.v"] (by decide)

/-- C10: the common-source computation of `find_common_deep` is commutative —
swapping the two directories yields the same set of relative paths. -/
theorem find_common_deep_comm (fs : FS) (p1 p2 : FPath) :
    (find_common_deep fs p1 p2).toFinset = (find_common_deep fs p2 p1).toFinset := by
  ext r
  simp only [List.mem_toFinset, mem_find_common_deep]
  exact and_comm

/-! ### The setup-directory resolver -/

/-- Counterexample to C3 as stated: the core's definition file — a file
whose base name matches the type name `iob_uart`, whether read as the full
file name or as the name with the extension stripped — is absent from every
directory of the tree (its only file is `iob_uart.v2.py`, whose stem is
`iob_uart.v2`), yet resolution does not fail with `SetupNotFound`: it
returns the path `lib`, because the source truncates `iob_uart.v2.py` at
its first dot. -/
theorem setup_not_found_counterexample :
    find_module_setup_dir ⟨"iob_uart", "iob_uart"⟩
        (DirTree.mk "lib" ["iob_uart.v2.py"] DirForest.nil) = Except.ok ["lib"]
      ∧ (∀ e ∈ walkTree [] (DirTree.mk "lib" ["iob_uart.v2.py"] DirForest.nil),
          ∀ file ∈ e.2, specStripExt file ≠ "iob_uart" ∧ file ≠ "iob_uart")
      ∧ ∃ p, find_module_setup_dir ⟨"iob_uart", "iob_uart"⟩
          (DirTree.mk "lib" ["iob_uart.v2.py"] DirForest.nil) = Except.ok p :=
  ⟨rfl, by decide, ⟨["lib"], rfl⟩⟩

/-- C3 (amended): when no file anywhere in the search tree matches the
core's type name under the source's rule — the file name truncated at its
first dot (`file.split(".")[0]`) equals the type name — resolution fails
with the `SetupNotFound` error naming the core and the search root, and
never returns a path. -/
theorem setup_not_found (core : PyCore) (root : DirTree)
    (h : ∀ e ∈ walkTree [] root, ∀ file ∈ e.2, fileMatches file core.className = false) :
    find_module_setup_dir core root =
        Except.error ("Setup dir of " ++ core.name ++ " not found in " ++ root.rootName ++ "!")
      ∧ ∀ p, find_module_setup_dir core root ≠ Except.ok p := by
  have hnone : (walkTree [] root).find?
      (fun e => e.2.any (fun file => fileMatches file core.className)) = none := by
    rw [List.find?_eq_none]
    intro e he
    simp only [List.any_eq_true, not_exists, not_and]
    intro file hfile
    simp [h e he file hfile]
  constructor
  · rw [find_module_setup_dir, hnone]
  · intro p
    rw [find_module_setup_dir, hnone]
    exact fun hx => Except.noConfusion hx

/-- Witness for C3 (amended): a tree with files `a.py` and `b.py` contains
no file matching class `missing`, so resolution returns the error. -/
theorem setup_not_found_witness :
    find_module_setup_dir ⟨"missing", "missing"⟩
        (DirTree.mk "root" ["a.py"]
          (DirForest.cons (DirTree.mk "sub" ["b.py"] DirForest.nil) DirForest.nil)) =
      Except.error ("Setup dir of " ++ "missing" ++ " not found in " ++ "root" ++ "!") :=
  (setup_not_found ⟨"missing", "missing"⟩
      (DirTree.mk "root" ["a.py"]
        (DirForest.cons (DirTree.mk "sub" ["b.py"] DirForest.nil) DirForest.nil))
      (by decide)).1

/-- Counterexample to C5 as stated: for type name `a` and a tree whose only
directory `r` holds the single file `a.b.py`, resolution returns `r`, yet no
file of `r` has base name with the extension stripped equal to `a` (the
source compares `file.split(".")[0]`, truncating at the first dot of the
name, not stripping the final extension). -/
theorem resolver_first_dot_counterexample :
    find_module_setup_dir ⟨"a", "a"⟩ (DirTree.mk "r" ["a.b.py"] DirForest.nil) =
        Except.ok ["r"]
      ∧ walkTree [] (DirTree.mk "r" ["a.b.py"] DirForest.nil) = [(["r"], ["a.b.py"])]
      ∧ ∀ file ∈ ["a.b.py"], specStripExt file ≠ "a" :=
  ⟨rfl, rfl, by decide⟩

/-- C5 (amended): resolution returns a directory exactly when it is the
first directory, in the fixed top-down `os.walk` traversal order, containing
a file whose name truncated at its first dot equals the core's type name;
the match is deterministic for a fixed traversal order. -/
theorem resolver_first_match (core : PyCore) (root : DirTree) (d : FPath)
    (h : find_module_setup_dir core root = Except.ok d) :
    ∃ fl l1 l2,
      walkTree [] root = l1 ++ (d, fl) :: l2
        ∧ fl.any (fun file => fileMatches file core.className) = true
        ∧ ∀ e ∈ l1, e.2.any (fun file => fileMatches file core.className) = false := by
  rw [find_module_setup_dir] at h
  cases hf : (walkTree [] root).find?
      (fun e => e.2.any (fun file => fileMatches file core.className)) with
  | none =>
    rw [hf] at h
    exact absurd h (fun hx => Except.noConfusion hx)
  | some e =>
    rw [hf] at h
    obtain ⟨d0, fl0⟩ := e
    rw [List.find?_eq_some] at hf
    obtain ⟨hpe, l1, l2, heq, hall⟩ := hf
    have hd : d0 = d := by
      injection h
    subst hd
    refine ⟨fl0, l1, l2, heq, hpe, fun e he => ?_⟩
    have := hall e he
    simpa using this

/-- Witness for C5 (amended): on a tree whose second directory holds
`iob_uart.py`, resolution returns that directory, and the theorem exhibits
it as the first match of the traversal. -/
theorem resolver_first_match_witness :
    ∃ fl l1 l2,
      walkTree []
          (DirTree.mk "root" ["readme.md"]
            (DirForest.cons (DirTree.mk "uart" ["iob_uart.py"] DirForest.nil) DirForest.nil))
        = l1 ++ (["root", "uart"], fl) :: l2
        ∧ fl.any (fun file => fileMatches file "iob_uart") = true
        ∧ ∀ e ∈ l1, e.2.any (fun file => fileMatches file "iob_uart") = false :=
  resolver_first_match ⟨"iob_uart", "iob_uart"⟩
    (DirTree.mk "root" ["readme.md"]
      (DirForest.cons (DirTree.mk "uart" ["iob_uart.py"] DirForest.nil) DirForest.nil))
    ["root", "uart"] rfl

/-! ### The construction pipeline -/

/-- C2: a descriptor constructed with `is_top = false` skips build-tree
creation, flow-scaffold copy-in, snippet-include resolution, deduplication
and documentation generation; a descriptor constructed with `is_top = true`
ends with snippet-include resolution, then deduplication, then documentation
generation receiving exactly the values produced by the register phase,
which runs before all three. -/
theorem init_pipeline_order (CG RT : Type) (csr_gen_obj : CG) (reg_table : RT) :
    (Step.create_build_dir_step ∉ initSteps CG RT false csr_gen_obj reg_table
        ∧ Step.flows_setup ∉ initSteps CG RT false csr_gen_obj reg_table
        ∧ Step.replace_snippet_includes ∉ initSteps CG RT false csr_gen_obj reg_table
        ∧ Step.remove_duplicate_sources_step ∉ initSteps CG RT false csr_gen_obj reg_table
        ∧ ∀ (o : CG) (t : RT),
            Step.generate_docs o t ∉ initSteps CG RT false csr_gen_obj reg_table)
      ∧ ∃ l1, initSteps CG RT true csr_gen_obj reg_table
          = l1 ++ [Step.replace_snippet_includes, Step.remove_duplicate_sources_step,
                   Step.generate_docs csr_gen_obj reg_table]
          ∧ Step.generate_csr csr_gen_obj reg_table ∈ l1 := by
  constructor
  · simp [initSteps]
  · exact ⟨[Step.resolve_setup_dir, Step.create_build_dir_step, Step.flows_setup,
      Step.copy_rename_setup_directory, Step.config_build_mk, Step.generate_confs,
      Step.generate_params, Step.generate_ports, Step.generate_csr csr_gen_obj reg_table],
      by simp [initSteps], by simp⟩

mutual
theorem mem_subBuildDirs : ∀ (c : CoreSpec) (td d : String), d ∈ subBuildDirs c td → d = td
  | CoreSpec.mk subs, td, d, h => by
    rw [subBuildDirs] at h
    rcases List.mem_cons.mp h with h1 | h2
    · exact h1
    · exact mem_subsBuildDirs subs td d h2
theorem mem_subsBuildDirs : ∀ (cs : CoreSpecList) (td d : String),
    d ∈ subsBuildDirs cs td → d = td
  | CoreSpecList.nil, td, d, h => by
    rw [subsBuildDirs] at h
    exact absurd h (List.not_mem_nil d)
  | CoreSpecList.cons c cs, td, d, h => by
    rw [subsBuildDirs] at h
    rcases List.mem_append.mp h with h1 | h2
    · exact mem_subBuildDirs c td d h1
    · exact mem_subsBuildDirs cs td d h2
end

/-- C4: the top descriptor's `build_dir` is `../<name>_<version>/build`, and
every descriptor of the same top-level build — the top core and all its
direct and transitive sub-cores — carries that very string as its
`build_dir`. -/
theorem build_dir_shared (name version : String) (subs : CoreSpecList) :
    ∀ d ∈ allBuildDirs name version subs,
      d = "../" ++ name ++ "_" ++ version ++ "/build" := by
  intro d hd
  rw [allBuildDirs] at hd
  rcases List.mem_cons.mp hd with h1 | h2
  · exact h1
  · exact mem_subsBuildDirs subs (topBuildDir name version) d h2

/-- Witness for C4 on a build with one sub-core: the member list evaluates
and every entry equals the derived top path. -/
theorem build_dir_shared_witness :
    topBuildDir "iob_soc" "1.0" = "../" ++ "iob_soc" ++ "_" ++ "1.0" ++ "/build" :=
  build_dir_shared "iob_soc" "1.0"
    (CoreSpecList.cons (CoreSpec.mk CoreSpecList.nil) CoreSpecList.nil)
    (topBuildDir "iob_soc" "1.0") (List.mem_cons_self _ _)

/-! ### Build-directory creation -/

theorem mem_insertPath (l : List FPath) (p a : FPath) :
    a ∈ insertPath l p ↔ a ∈ l ∨ a = p := by
  rw [insertPath]
  split
  · rename_i h
    constructor
    · exact Or.inl
    · rintro (ha | rfl)
      · exact ha
      · exact h
  · simp [List.mem_append]

theorem insertPath_eq_self (l : List FPath) (p : FPath) (h : p ∈ l) :
    insertPath l p = l := by
  rw [insertPath, if_pos h]

theorem mem_foldl_insertPath (L : List FPath) (l : List FPath) (a : FPath) :
    a ∈ L.foldl insertPath l ↔ a ∈ l ∨ a ∈ L := by
  induction L generalizing l with
  | nil => simp
  | cons q L ih =>
    rw [List.foldl_cons, ih, mem_insertPath]
    simp only [List.mem_cons]
    tauto

theorem foldl_insertPath_eq_self (L : List FPath) (l : List FPath) (h : ∀ q ∈ L, q ∈ l) :
    L.foldl insertPath l = l := by
  induction L generalizing l with
  | nil => rfl
  | cons q L ih =>
    rw [List.foldl_cons, insertPath_eq_self l q (h q (List.mem_cons_self q L))]
    exact ih l (fun x hx => h x (List.mem_cons_of_mem q hx))

theorem self_mem_pathAncestors : ∀ (p : FPath), p ≠ [] → p ∈ pathAncestors p
  | [], h => absurd rfl h
  | [x], _ => by simp [pathAncestors]
  | x :: y :: ys, _ => by
    rw [pathAncestors]
    exact List.mem_cons_of_mem _
      (List.mem_map_of_mem _ (self_mem_pathAncestors (y :: ys) (by simp)))

theorem mem_dirs_makedirs (fs : FS) (p a : FPath) :
    a ∈ (makedirs fs p).dirs ↔ a ∈ fs.dirs ∨ a ∈ pathAncestors p := by
  rw [makedirs]
  exact mem_foldl_insertPath _ _ _

theorem makedirs_eq_self (fs : FS) (p : FPath) (h : ∀ q ∈ pathAncestors p, q ∈ fs.dirs) :
    makedirs fs p = fs := by
  rw [makedirs, foldl_insertPath_eq_self _ _ h]

theorem files_makedirs (fs : FS) (p : FPath) : (makedirs fs p).files = fs.files := rfl

theorem dirs_copyfileTo (fs : FS) (dst : FPath) : (copyfileTo fs dst).dirs = fs.dirs := rfl

theorem mem_files_copyfileTo (fs : FS) (dst a : FPath) :
    a ∈ (copyfileTo fs dst).files ↔ a ∈ fs.files ∨ a = dst :=
  mem_insertPath fs.files dst a

theorem copyfileTo_eq_self (fs : FS) (dst : FPath) (h : dst ∈ fs.files) :
    copyfileTo fs dst = fs := by
  rw [copyfileTo, insertPath_eq_self _ _ h]

theorem mem_dirs_buildFS (bd : FPath) (fs : FS) (a : FPath) :
    a ∈ (buildFS bd fs).dirs ↔
      a ∈ fs.dirs ∨ a ∈ pathAncestors bd ∨ a ∈ pathAncestors (bd ++ hw_src)
        ∨ a ∈ pathAncestors (bd ++ simulation_src) ∨ a ∈ pathAncestors (bd ++ fpga_src)
        ∨ a ∈ pathAncestors (bd ++ ["doc"]) ∨ a ∈ pathAncestors (bd ++ ["doc", "tsrc"]) := by
  rw [buildFS, dirs_copyfileTo]
  simp only [mem_dirs_makedirs]
  tauto

theorem mem_files_buildFS (bd : FPath) (fs : FS) (a : FPath) :
    a ∈ (buildFS bd fs).files ↔ a ∈ fs.files ∨ a = bd ++ ["Makefile"] := by
  rw [buildFS, mem_files_copyfileTo]
  simp only [files_makedirs]

theorem buildFS_idem (bd : FPath) (fs : FS) : buildFS bd (buildFS bd fs) = buildFS bd fs := by
  have h1 : makedirs (buildFS bd fs) bd = buildFS bd fs :=
    makedirs_eq_self _ _ (fun q hq => (mem_dirs_buildFS bd fs q).mpr (by tauto))
  have h2 : makedirs (buildFS bd fs) (bd ++ hw_src) = buildFS bd fs :=
    makedirs_eq_self _ _ (fun q hq => (mem_dirs_buildFS bd fs q).mpr (by tauto))
  have h3 : makedirs (buildFS bd fs) (bd ++ simulation_src) = buildFS bd fs :=
    makedirs_eq_self _ _ (fun q hq => (mem_dirs_buildFS bd fs q).mpr (by tauto))
  have h4 : makedirs (buildFS bd fs) (bd ++ fpga_src) = buildFS bd fs :=
    makedirs_eq_self _ _ (fun q hq => (mem_dirs_buildFS bd fs q).mpr (by tauto))
  have h5 : makedirs (buildFS bd fs) (bd ++ ["doc"]) = buildFS bd fs :=
    makedirs_eq_self _ _ (fun q hq => (mem_dirs_buildFS bd fs q).mpr (by tauto))
  have h6 : makedirs (buildFS bd fs) (bd ++ ["doc", "tsrc"]) = buildFS bd fs :=
    makedirs_eq_self _ _ (fun q hq => (mem_dirs_buildFS bd fs q).mpr (by tauto))
  have h7 : copyfileTo (buildFS bd fs) (bd ++ ["Makefile"]) = buildFS bd fs :=
    copyfileTo_eq_self _ _ ((mem_files_buildFS bd fs _).mpr (Or.inr rfl))
  conv_lhs => rw [buildFS]
  rw [h1, h2, h3, h4, h5, h6, h7]

/-- C6: building a top-level core creates `hardware/src`,
`hardware/simulation/src`, `hardware/fpga/src`, `doc` and `doc/tsrc` under
the build directory and places a `Makefile` at the build-directory root —
even with zero sub-instances, since `__create_build_dir` alone produces
them; creation is idempotent, so pre-existing directories are not an
error. -/
theorem create_build_dir_spec (bd : FPath) (fs : FS) :
    ∃ fs', create_build_dir true bd fs = some fs'
      ∧ bd ++ hw_src ∈ fs'.dirs
      ∧ bd ++ simulation_src ∈ fs'.dirs
      ∧ bd ++ fpga_src ∈ fs'.dirs
      ∧ bd ++ ["doc"] ∈ fs'.dirs
      ∧ bd ++ ["doc", "tsrc"] ∈ fs'.dirs
      ∧ bd ++ ["Makefile"] ∈ fs'.files
      ∧ create_build_dir true bd fs' = some fs' := by
  refine ⟨buildFS bd fs, rfl, ?_, ?_, ?_, ?_, ?_, ?_, ?_⟩
  · rw [mem_dirs_buildFS]
    have := self_mem_pathAncestors (bd ++ hw_src) (by simp [hw_src])
    tauto
  · rw [mem_dirs_buildFS]
    have := self_mem_pathAncestors (bd ++ simulation_src) (by simp [simulation_src])
    tauto
  · rw [mem_dirs_buildFS]
    have := self_mem_pathAncestors (bd ++ fpga_src) (by simp [fpga_src])
    tauto
  · rw [mem_dirs_buildFS]
    have := self_mem_pathAncestors (bd ++ ["doc"]) (by simp)
    tauto
  · rw [mem_dirs_buildFS]
    have := self_mem_pathAncestors (bd ++ ["doc", "tsrc"]) (by simp)
    tauto
  · rw [mem_files_buildFS]
    exact Or.inr rfl
  · show create_build_dir true bd (buildFS bd fs) = some (buildFS bd fs)
    rw [create_build_dir, if_pos rfl, buildFS_idem]

/-! ### The report operation -/

/-- Counterexample to C7 as stated: `print_build_dir` is not free of side
effects on the descriptor. For a top descriptor named `Foo`, version `1.0`,
whose `build_dir` is `../Foo_1.0/build`, invoking it overwrites `build_dir`
with the printed path `../Foo_1.0`, a different string. -/
theorem print_build_dir_mutates :
    (print_build_dir
        ⟨"Foo", "1.0", "1.0", "iob", "hardware", true, "", "../Foo_1.0/build"⟩
        ⟨[], []⟩).1.build_dir
      ≠ CoreAttrs.build_dir
          ⟨"Foo", "1.0", "1.0", "iob", "hardware", true, "", "../Foo_1.0/build"⟩
      ∧ (print_build_dir
          ⟨"Foo", "1.0", "1.0", "iob", "hardware", true, "", "../Foo_1.0/build"⟩
          ⟨[], []⟩).2.2 = "../Foo_1.0" := by
  constructor
  · decide
  · decide

/-- C7 (amended): `print_build_dir` prints the path `../<name>_<version>`
derived from the descriptor's current `name` and `version`, leaves the
filesystem and every descriptor field other than `build_dir` unchanged, and
sets `build_dir` to the printed path. -/
theorem print_build_dir_spec (c : CoreAttrs) (fs : FS) :
    (print_build_dir c fs).2.2 = "../" ++ c.name ++ "_" ++ c.version
      ∧ (print_build_dir c fs).2.1 = fs
      ∧ (print_build_dir c fs).1.name = c.name
      ∧ (print_build_dir c fs).1.version = c.version
      ∧ (print_build_dir c fs).1.previous_version = c.previous_version
      ∧ (print_build_dir c fs).1.csr_if = c.csr_if
      ∧ (print_build_dir c fs).1.purpose = c.purpose
      ∧ (print_build_dir c fs).1.is_top_module = c.is_top_module
      ∧ (print_build_dir c fs).1.setup_dir = c.setup_dir
      ∧ (print_build_dir c fs).1.build_dir = "../" ++ c.name ++ "_" ++ c.version :=
  ⟨rfl, rfl, rfl, rfl, rfl, rfl, rfl, rfl, rfl, rfl⟩

/-- Witness for C2 at concrete phase-output types: a non-top construction
trace contains no build-tree-creation step. -/
theorem init_pipeline_order_witness :
    Step.create_build_dir_step ∉ initSteps Nat Nat false 0 0 :=
  (init_pipeline_order Nat Nat 0 0).1.1
